import Mathlib

/-
Verification of the route resolution & caching engine of the Locatr
repository (pipeline/london_bike_pipeline.py and pipeline/backfill_range.py).

Modelling conventions:
* Python floats are embedded as rationals (ℚ).  All coordinates flowing
  through the route engine are rounded to 6 decimal places before use.
* An encoded polyline geometry is embedded as its decoded list of
  (lat, lon) points: the external `polyline` library provides the
  encode/decode bijection, so `straight_line_polyline6` is embedded as the
  point list it encodes.
* The requests session / OSRM HTTP service is an oracle
  `net : CoordPair → Except Unit OsrmPayload`; a transport failure
  (connection error, retry exhaustion, non-2xx after retries, timeout) is
  `Except.error ()`.
* The route cache (a Python dict) is an association list with
  overwrite-on-insert semantics.
-/

/-! ### Rounding and the cache key (london_bike_pipeline.py lines 689-690) -/

/-- Round a rational to the nearest integer with ties going to the even
integer, the rounding mode used both by `round`/`DataFrame.round` and by
`format(x, '.6f')` in Python.  Writing `y = num/den` with `den > 0` and
`f = ⌊y⌋`, the fractional part `y - f` equals `(num - f*den)/den`, so
`y - f < 1/2` iff `2*(num - f*den) < den`, and similarly for `>`; ties
pick the even neighbour.  The definition works on `num`/`den` directly so
it evaluates by kernel reduction. -/
def roundHalfEven (y : ℚ) : ℤ :=
  let f := Int.fdiv y.num (y.den : ℤ)
  let r2 := 2 * (y.num - f * (y.den : ℤ))
  if r2 < (y.den : ℤ) then f
  else if (y.den : ℤ) < r2 then f + 1
  else if f % 2 = 0 then f else f + 1

/-- The rational `x * 10^6`, built with `mkRat` so it kernel-reduces. -/
def scaledQ (x : ℚ) : ℚ := mkRat (x.num * 1000000) x.den

/-- The integer obtained by scaling a coordinate by 10^6 and rounding. -/
def scaled6 (x : ℚ) : ℤ := roundHalfEven (scaledQ x)

/-- Round a coordinate to 6 decimal places (pandas `.round(6)`). -/
def round6 (x : ℚ) : ℚ := mkRat (scaled6 x) 1000000

/-- Left-pad a digit string with zeros to width 6. -/
def pad6 (s : String) : String :=
  String.mk (List.replicate (6 - s.length) '0') ++ s

/-- The digit body of a fixed 6-decimal rendering of an integer of
micro-units. -/
def fmt6mag (n : ℤ) : String :=
  Nat.repr (n.natAbs / 1000000) ++ "." ++ pad6 (Nat.repr (n.natAbs % 1000000))

/-- A value that is negative yet rounds to zero at 6 decimals.  Python
rounding of such a float yields `-0.0`, and `%.6f` keeps its sign. -/
def isNegZero6 (x : ℚ) : Prop := scaled6 x = 0 ∧ x < 0

instance (x : ℚ) : Decidable (isNegZero6 x) :=
  inferInstanceAs (Decidable (scaled6 x = 0 ∧ x < 0))

/-- Python `f"{x:.6f}"`: fixed-point rendering with exactly 6 decimals.
The sign is printed whenever the value is negative — also when the
rounded magnitude is zero (`f"{-1e-07:.6f}"` is `"-0.000000"`), since
`%.6f` preserves the sign of a negative zero. -/
def fmt6 (x : ℚ) : String :=
  if scaled6 x < 0 ∨ (scaled6 x = 0 ∧ x < 0) then "-" ++ fmt6mag (scaled6 x)
  else fmt6mag (scaled6 x)

/-- The cache key of a coordinate pair
(`route_key`, london_bike_pipeline.py lines 689-690). -/
def route_key (start_lon start_lat end_lon end_lat : ℚ) : String :=
  fmt6 start_lon ++ "|" ++ fmt6 start_lat ++ "|" ++ fmt6 end_lon ++ "|" ++ fmt6 end_lat

theorem scaled6_eq_of_round6_eq {x y : ℚ} (h : round6 x = round6 y) :
    scaled6 x = scaled6 y := by
  unfold round6 at h
  rw [Rat.mkRat_eq_divInt, Rat.mkRat_eq_divInt, Rat.divInt_eq_div, Rat.divInt_eq_div] at h
  have h2 : (scaled6 x : ℚ) = (scaled6 y : ℚ) := by
    field_simp at h
    exact_mod_cast h
  exact_mod_cast h2

theorem fmt6_congr {x y : ℚ} (h : scaled6 x = scaled6 y)
    (hz : isNegZero6 x ↔ isNegZero6 y) : fmt6 x = fmt6 y := by
  unfold isNegZero6 at hz
  unfold fmt6
  rw [h] at hz ⊢
  exact if_congr (or_congr Iff.rfl hz) rfl rfl

/-- C4 counterexample: -0.0000001 and 0 round to the same 6-decimal value
(a negative zero, numerically equal to zero), yet the source's `%.6f`
formatting preserves the sign, so the two derived route keys differ
("-0.000000|…" against "0.000000|…"), refuting the claim as stated. -/
theorem route_key_negative_zero :
    round6 (mkRat (-1) 10000000) = round6 (0 : ℚ) ∧
      route_key (mkRat (-1) 10000000) 1 2 3 ≠ route_key 0 1 2 3 := by
  decide

/-- C4 amended: two coordinate pairs whose coordinates round to the same
6-decimal values produce the same route key, provided corresponding
coordinates also agree on being a negative value that rounds to zero —
such a value keeps its minus sign in the key ("-0.000000"), so it keys
differently from an exact or positive zero.  Within that proviso the key
is a pure function of the rounded values, hence independent of call order
or thread. -/
theorem route_key_deterministic (a1 b1 c1 d1 a2 b2 c2 d2 : ℚ)
    (ha : round6 a1 = round6 a2) (hb : round6 b1 = round6 b2)
    (hc : round6 c1 = round6 c2) (hd : round6 d1 = round6 d2)
    (hza : isNegZero6 a1 ↔ isNegZero6 a2) (hzb : isNegZero6 b1 ↔ isNegZero6 b2)
    (hzc : isNegZero6 c1 ↔ isNegZero6 c2) (hzd : isNegZero6 d1 ↔ isNegZero6 d2) :
    route_key a1 b1 c1 d1 = route_key a2 b2 c2 d2 := by
  unfold route_key
  rw [fmt6_congr (scaled6_eq_of_round6_eq ha) hza,
    fmt6_congr (scaled6_eq_of_round6_eq hb) hzb,
    fmt6_congr (scaled6_eq_of_round6_eq hc) hzc,
    fmt6_congr (scaled6_eq_of_round6_eq hd) hzd]

/-- Witness for C4 amended at a concrete input: 0.0000001 and 0 round to
the same 6-decimal value, neither is a negative zero, and the keys agree. -/
theorem route_key_deterministic_witness :
    (round6 (mkRat 1 10000000) = round6 (0 : ℚ) ∧
      (isNegZero6 (mkRat 1 10000000) ↔ isNegZero6 (0 : ℚ))) ∧
      route_key (mkRat 1 10000000) 1 2 3 = route_key 0 1 2 3 :=
  ⟨⟨by decide, by decide⟩,
   route_key_deterministic (mkRat 1 10000000) 1 2 3 0 1 2 3
     (by decide) (by decide) (by decide) (by decide)
     (by decide) (by decide) (by decide) (by decide)⟩

/-! ### Auto-tune qps candidate grid (backfill_range.py lines 384-393) -/

/-- The qps candidate grid of `auto_tune_osrm`:
`sorted({max(20.0, args.osrm_qps), 80.0, 120.0, 180.0, 260.0, 320.0})`. -/
def qps_candidates (osrm_qps : ℚ) : List ℚ :=
  (([max 20 osrm_qps, 80, 120, 180, 260, 320] : List ℚ).dedup).insertionSort (· ≤ ·)

/-- C5 counterexample: with the operator-supplied baseline qps 10 (the
default `--osrm-qps`), the candidate grid does not contain 10 — the grid
clamps the baseline up to 20. -/
theorem qps_candidates_missing_baseline : ¬ ((10 : ℚ) ∈ qps_candidates 10) := by
  decide

/-- C5 amended: the candidate grid contains the operator-supplied baseline
whenever the baseline is at least 20 (the grid always contains
`max 20 baseline`, so baselines below 20 are replaced by 20). -/
theorem qps_candidates_mem_baseline (q : ℚ) (h : 20 ≤ q) :
    q ∈ qps_candidates q := by
  unfold qps_candidates
  rw [(List.perm_insertionSort _ _).mem_iff, List.mem_dedup, max_eq_right h]
  exact List.mem_cons_self _ _

/-- Witness for C5 amended at baseline 80. -/
theorem qps_candidates_mem_baseline_witness :
    (20 : ℚ) ≤ 80 ∧ (80 : ℚ) ∈ qps_candidates 80 :=
  ⟨by norm_num, qps_candidates_mem_baseline 80 (by norm_num)⟩

/-! ### Data model: coordinate pairs and route results
(london_bike_pipeline.py lines 119-128, 693-699) -/

/-- A coordinate pair, the unit of route resolution. -/
structure CoordPair where
  start_lon : ℚ
  start_lat : ℚ
  end_lon : ℚ
  end_lat : ℚ
deriving DecidableEq, Repr

/-- Round all four coordinates of a pair to 6 decimals. -/
def roundPair (p : CoordPair) : CoordPair :=
  ⟨round6 p.start_lon, round6 p.start_lat, round6 p.end_lon, round6 p.end_lat⟩

/-- The cache key of a pair (`route_key` applied to its fields). -/
def pairKey (p : CoordPair) : String :=
  route_key p.start_lon p.start_lat p.end_lon p.end_lat

/-- A resolved route.  The encoded polyline geometry is embedded as its
decoded list of (lat, lon) points (the external `polyline` library is the
encode/decode bijection). -/
structure RouteResult where
  start_lon : ℚ
  start_lat : ℚ
  end_lon : ℚ
  end_lat : ℚ
  route_geometry : List (ℚ × ℚ)
  route_distance_m : ℚ
  route_duration_s : ℚ
  route_source : String
deriving DecidableEq, Repr

/-- Build a `RouteResult` echoing the coordinates of a pair, as every
construction site in the source does. -/
def mkRouteResult (p : CoordPair) (geo : List (ℚ × ℚ)) (dist dur : ℚ)
    (src : String) : RouteResult :=
  ⟨p.start_lon, p.start_lat, p.end_lon, p.end_lat, geo, dist, dur, src⟩

/-- The straight-line geometry (`straight_line_polyline6`,
london_bike_pipeline.py lines 693-699): the start point, plus the end
point when it differs.  Embedded as the point list the source encodes. -/
def straight_line_polyline6 (start_lon start_lat end_lon end_lat : ℚ) :
    List (ℚ × ℚ) :=
  if start_lon ≠ end_lon ∨ start_lat ≠ end_lat then
    [(start_lat, start_lon), (end_lat, end_lon)]
  else [(start_lat, start_lon)]

theorem straight_line_polyline6_length (a b c d : ℚ) :
    (straight_line_polyline6 a b c d).length ≤ 2 := by
  unfold straight_line_polyline6
  split <;> simp

theorem straight_line_polyline6_mem (a b c d : ℚ) :
    ∀ q ∈ straight_line_polyline6 a b c d, q = (b, a) ∨ q = (d, c) := by
  unfold straight_line_polyline6
  split <;> intro q hq <;> simp at hq <;> tauto

/-! ### The resolver (`fetch_osrm_route`, london_bike_pipeline.py
lines 702-752).  The HTTP session + OSRM service is the oracle `net`;
`Except.error ()` is a raised exception (connection error, retry
exhaustion, timeout, non-2xx status).  The second component of the result
counts network calls issued. -/

/-- One route candidate of an OSRM response payload. -/
structure OsrmRoute where
  geometry : List (ℚ × ℚ)
  distance : ℚ
  duration : ℚ
deriving DecidableEq, Repr

/-- A decoded OSRM JSON payload: status code string and route list. -/
structure OsrmPayload where
  code : String
  routes : List OsrmRoute
deriving DecidableEq, Repr

/-- The resolver: stationary short-circuit on exact coordinate equality,
otherwise one network call, failing unless the payload code is "Ok" and
the route list is non-empty; on success the first route is taken with
`source = osrm`. -/
def fetch_osrm_route (net : CoordPair → Except Unit OsrmPayload)
    (p : CoordPair) : Except Unit RouteResult × ℕ :=
  if p.start_lon = p.end_lon ∧ p.start_lat = p.end_lat then
    (Except.ok (mkRouteResult p
      (straight_line_polyline6 p.start_lon p.start_lat p.end_lon p.end_lat)
      0 0 "stationary"), 0)
  else
    match net p with
    | Except.error e => (Except.error e, 1)
    | Except.ok payload =>
      if payload.code = "Ok" then
        match payload.routes with
        | [] => (Except.error (), 1)
        | best :: _ =>
          (Except.ok (mkRouteResult p best.geometry best.distance best.duration
            "osrm"), 1)
      else (Except.error (), 1)

/-- The per-pair worker wrapper (`hydrate_routes.fetch_pair`,
london_bike_pipeline.py lines 857-881): on any resolver exception the
straight-line fallback result is substituted. -/
def fetch_pair (net : CoordPair → Except Unit OsrmPayload)
    (p : CoordPair) : RouteResult × ℕ :=
  match fetch_osrm_route net p with
  | (Except.ok r, n) => (r, n)
  | (Except.error _, n) =>
    (mkRouteResult p
      (straight_line_polyline6 p.start_lon p.start_lat p.end_lon p.end_lat)
      0 0 "fallback_straight_line", n)

theorem fetch_osrm_route_ok_coords (net : CoordPair → Except Unit OsrmPayload)
    (p : CoordPair) (r : RouteResult) (n : ℕ)
    (h : fetch_osrm_route net p = (Except.ok r, n)) :
    r.start_lon = p.start_lon ∧ r.start_lat = p.start_lat ∧
      r.end_lon = p.end_lon ∧ r.end_lat = p.end_lat := by
  unfold fetch_osrm_route at h
  split at h
  · simp only [Prod.mk.injEq, Except.ok.injEq] at h
    obtain ⟨hr, -⟩ := h
    subst hr
    simp [mkRouteResult]
  · split at h
    · simp at h
    · split at h
      · split at h
        · simp at h
        · simp only [Prod.mk.injEq, Except.ok.injEq] at h
          obtain ⟨hr, -⟩ := h
          subst hr
          simp [mkRouteResult]
      · simp at h

theorem fetch_pair_coords (net : CoordPair → Except Unit OsrmPayload)
    (p : CoordPair) :
    (fetch_pair net p).1.start_lon = p.start_lon ∧
      (fetch_pair net p).1.start_lat = p.start_lat ∧
      (fetch_pair net p).1.end_lon = p.end_lon ∧
      (fetch_pair net p).1.end_lat = p.end_lat := by
  rcases hfo : fetch_osrm_route net p with ⟨res, n⟩
  cases res with
  | ok r =>
    have hc := fetch_osrm_route_ok_coords net p r n hfo
    unfold fetch_pair
    rw [hfo]
    simpa using hc
  | error e =>
    unfold fetch_pair
    rw [hfo]
    simp [mkRouteResult]

theorem fetch_pair_key (net : CoordPair → Except Unit OsrmPayload)
    (p : CoordPair) :
    route_key (fetch_pair net p).1.start_lon (fetch_pair net p).1.start_lat
      (fetch_pair net p).1.end_lon (fetch_pair net p).1.end_lat = pairKey p := by
  obtain ⟨h1, h2, h3, h4⟩ := fetch_pair_coords net p
  rw [h1, h2, h3, h4]
  rfl

theorem fetch_pair_of_error (net : CoordPair → Except Unit OsrmPayload)
    (p : CoordPair) (h : (fetch_osrm_route net p).1 = Except.error ()) :
    (fetch_pair net p).1 = mkRouteResult p
      (straight_line_polyline6 p.start_lon p.start_lat p.end_lon p.end_lat)
      0 0 "fallback_straight_line" := by
  unfold fetch_pair
  rcases hfo : fetch_osrm_route net p with ⟨res, n⟩
  rw [hfo] at h
  simp only at h
  subst h
  rfl

/-! ### The route cache.  A Python dict keyed by route-key strings,
embedded as an association list with overwrite-on-insert; `lookupC` is
`cache.get`/`in`, `insertC` is `cache[key] = result`. -/

/-- The cache type: unique keys mapped to results. -/
def RouteCache : Type := List (String × RouteResult)

/-- Dict lookup. -/
def lookupC : RouteCache → String → Option RouteResult
  | [], _ => none
  | (k, v) :: rest, key => if k = key then some v else lookupC rest key

/-- Dict assignment: overwrite the binding if the key exists, else append. -/
def insertC : RouteCache → String → RouteResult → RouteCache
  | [], key, v => [(key, v)]
  | (k, w) :: rest, key, v =>
    if k = key then (key, v) :: rest else (k, w) :: insertC rest key v

theorem lookupC_insertC_self (c : RouteCache) (k : String) (v : RouteResult) :
    lookupC (insertC c k v) k = some v := by
  induction c with
  | nil => simp [insertC, lookupC]
  | cons hd tl ih =>
    obtain ⟨k2, w⟩ := hd
    by_cases h : k2 = k
    · simp [insertC, h, lookupC]
    · simp [insertC, h, lookupC, ih]

theorem lookupC_insertC_ne (c : RouteCache) (k1 k : String) (v : RouteResult)
    (h : k1 ≠ k) : lookupC (insertC c k1 v) k = lookupC c k := by
  induction c with
  | nil => simp [insertC, lookupC, h]
  | cons hd tl ih =>
    obtain ⟨k2, w⟩ := hd
    by_cases h2 : k2 = k1
    · subst h2
      simp [insertC, lookupC, h]
    · simp only [insertC, if_neg h2, lookupC]
      by_cases h3 : k2 = k
      · simp [h3]
      · simp [h3, ih]

theorem isSome_lookupC_insertC (c : RouteCache) (k1 k : String)
    (v : RouteResult) (h : (lookupC c k).isSome) :
    (lookupC (insertC c k1 v) k).isSome := by
  by_cases hk : k1 = k
  · subst hk
    simp [lookupC_insertC_self]
  · rw [lookupC_insertC_ne c k1 k v hk]
    exact h

/-! ### Cache loading (`load_route_cache`, london_bike_pipeline.py
lines 755-774).  The store file is modelled as absent, unreadable
(`pd.read_parquet` raises), or a table of rows whose columns may be
missing (attribute access on `itertuples` rows raises for a missing
column). -/

/-- One row of the persisted cache store; `none` marks a missing column. -/
structure CacheRow where
  start_lon : Option ℚ
  start_lat : Option ℚ
  end_lon : Option ℚ
  end_lat : Option ℚ
  route_geometry : Option (List (ℚ × ℚ))
  route_distance_m : Option ℚ
  route_duration_s : Option ℚ
  route_source : Option String

/-- The state of the on-disk cache store. -/
inductive CacheStore
  | absent : CacheStore
  | unreadable : CacheStore
  | table : List CacheRow → CacheStore

/-- Read a column value, raising (`Except.error`) when the column is
missing from the store. -/
def getCol {α : Type} : Option α → Except Unit α
  | some a => Except.ok a
  | none => Except.error ()

/-- Load the route cache: an absent file yields an empty cache; an
unreadable file raises; rows are turned into `RouteResult`s keyed by
`route_key` of their coordinates, raising if a needed column is missing. -/
def load_route_cache : CacheStore → Except Unit RouteCache
  | CacheStore.absent => Except.ok []
  | CacheStore.unreadable => Except.error ()
  | CacheStore.table rows =>
    rows.foldlM (fun cache row => do
      let sl ← getCol row.start_lon
      let sa ← getCol row.start_lat
      let el ← getCol row.end_lon
      let ea ← getCol row.end_lat
      let geo ← getCol row.route_geometry
      let dist ← getCol row.route_distance_m
      let dur ← getCol row.route_duration_s
      let src ← getCol row.route_source
      Except.ok (insertC cache (route_key sl sa el ea)
        ⟨sl, sa, el, ea, geo, dist, dur, src⟩)) []

/-- A store row with every expected column missing. -/
def emptyCacheRow : CacheRow := ⟨none, none, none, none, none, none, none, none⟩

/-- C1 counterexample: loading an unreadable store raises instead of
degrading to an empty cache, refuting "load never raises for structural
or missing-data problems". -/
theorem load_route_cache_raises :
    load_route_cache CacheStore.unreadable = Except.error () := rfl

/-- C1 amended: loading returns the empty cache when the store file is
absent; an unreadable store, or a store whose rows lack the expected
coordinate/geometry columns, raises (the exception propagates to the
caller). -/
theorem load_route_cache_amended :
    load_route_cache CacheStore.absent = Except.ok [] ∧
      load_route_cache CacheStore.unreadable = Except.error () ∧
      load_route_cache (CacheStore.table [emptyCacheRow]) = Except.error () :=
  ⟨rfl, rfl, rfl⟩

/-! ### C9: the stationary short-circuit.  The source compares the raw
coordinates (`start_lon == end_lon and start_lat == end_lat`,
london_bike_pipeline.py line 711), not the rounded ones. -/

/-- A pair whose start and end differ raw but agree after 6-decimal
rounding (end longitude 0.0000001). -/
def ceStationaryPair : CoordPair := ⟨0, 0, mkRat 1 10000000, 0⟩

/-- A network oracle that answers every request successfully. -/
def ceNet : CoordPair → Except Unit OsrmPayload :=
  fun _ => Except.ok ⟨"Ok", [⟨[(0, 0)], 5, 7⟩]⟩

/-- C9 counterexample: for a pair whose start equals its end after
6-decimal rounding but not raw, `fetch_osrm_route` issues a network call
and returns an `osrm`-tagged (non-stationary) result, refuting the claim
as stated over pairs that are merely equal after rounding. -/
theorem fetch_osrm_route_rounded_equal_not_stationary :
    (round6 ceStationaryPair.start_lon = round6 ceStationaryPair.end_lon ∧
      round6 ceStationaryPair.start_lat = round6 ceStationaryPair.end_lat) ∧
      (fetch_osrm_route ceNet ceStationaryPair).2 = 1 ∧
      (fetch_osrm_route ceNet ceStationaryPair).1 =
        Except.ok (mkRouteResult ceStationaryPair [(0, 0)] 5 7 "osrm") ∧
      (mkRouteResult ceStationaryPair [(0, 0)] 5 7 "osrm").route_source ≠
        "stationary" :=
  ⟨by decide, rfl, rfl, by decide⟩

/-- C9 amended: the stationary short-circuit fires exactly on raw
coordinate equality: when the pair's start equals its end as passed (all
callers pass already-rounded coordinates, for which this coincides with
equality after rounding), the resolver immediately returns the stationary
result — zero distance, zero duration, single-point geometry — with zero
network calls. -/
theorem fetch_osrm_route_stationary (net : CoordPair → Except Unit OsrmPayload)
    (p : CoordPair) (h1 : p.start_lon = p.end_lon) (h2 : p.start_lat = p.end_lat) :
    fetch_osrm_route net p =
      (Except.ok (mkRouteResult p
        (straight_line_polyline6 p.start_lon p.start_lat p.end_lon p.end_lat)
        0 0 "stationary"), 0) ∧
      straight_line_polyline6 p.start_lon p.start_lat p.end_lon p.end_lat =
        [(p.start_lat, p.start_lon)] := by
  constructor
  · unfold fetch_osrm_route
    rw [if_pos ⟨h1, h2⟩]
  · unfold straight_line_polyline6
    rw [if_neg]
    push_neg
    exact ⟨h1, h2⟩

/-- Witness for C9 amended at a concrete stationary pair. -/
theorem fetch_osrm_route_stationary_witness :
    (CoordPair.mk 1 2 1 2).start_lon = (CoordPair.mk 1 2 1 2).end_lon ∧
      fetch_osrm_route ceNet ⟨1, 2, 1, 2⟩ =
        (Except.ok (mkRouteResult ⟨1, 2, 1, 2⟩
          (straight_line_polyline6 1 2 1 2) 0 0 "stationary"), 0) ∧
      straight_line_polyline6 1 2 1 2 = [(2, 1)] :=
  ⟨rfl,
   (fetch_osrm_route_stationary ceNet ⟨1, 2, 1, 2⟩ rfl rfl).1,
   (fetch_osrm_route_stationary ceNet ⟨1, 2, 1, 2⟩ rfl rfl).2⟩

/-! ### The hydrator (`hydrate_routes`, london_bike_pipeline.py
lines 801-926).  Unique pairs are the 6-decimal-rounded deduplicated
coordinate tuples of the trips (pandas `round(6).drop_duplicates`, which
keeps first occurrences); `missing` are those whose key is not cached;
an optional cap splits them into `to_fetch` (first `max_new_routes`) and
`to_fallback` (the rest).  Fetched results are merged first (as the pool
drains), then the capped remainder is merged with
`source = fallback_max_new_routes`. -/

/-- Deduplication keeping first occurrences
(pandas `drop_duplicates`). -/
def dedupFirstAux (seen : List CoordPair) : List CoordPair → List CoordPair
  | [] => []
  | p :: rest =>
    if p ∈ seen then dedupFirstAux seen rest
    else p :: dedupFirstAux (p :: seen) rest

/-- The rounded, deduplicated coordinate pairs of the trips
(london_bike_pipeline.py lines 810-814). -/
def unique_pairs (trips : List CoordPair) : List CoordPair :=
  dedupFirstAux [] (trips.map roundPair)

/-- The unique pairs whose key is not in the cache
(london_bike_pipeline.py lines 815-819). -/
def missingPairs (trips : List CoordPair) (cache : RouteCache) : List CoordPair :=
  (unique_pairs trips).filter (fun p => (lookupC cache (pairKey p)).isNone)

/-- The pairs attempted against the resolver: the first `max_new_routes`
missing pairs when the cap binds (london_bike_pipeline.py lines 836-846). -/
def toFetchPairs (missing : List CoordPair) (max_new_routes : Option ℕ) :
    List CoordPair :=
  match max_new_routes with
  | some k => if missing.length > k then missing.take k else missing
  | none => missing

/-- The capped remainder assigned `fallback_max_new_routes` without any
resolver attempt. -/
def toFallbackPairs (missing : List CoordPair) (max_new_routes : Option ℕ) :
    List CoordPair :=
  match max_new_routes with
  | some k => if missing.length > k then missing.drop k else []
  | none => []

/-- The outcome of one hydration cycle: the merged cache, the number of
resolver attempts (`fetch_pair` submissions) and the number of network
calls issued. -/
structure HydrateResult where
  cache : RouteCache
  resolverCalls : ℕ
  netCalls : ℕ

/-- One hydration cycle (london_bike_pipeline.py lines 801-926): if
nothing is missing the cache is returned unchanged with zero work;
otherwise `to_fetch` is resolved through `fetch_pair` and merged under the
keys of the result coordinates (line 892), then the capped remainder is
merged as `fallback_max_new_routes` results (lines 913-924). -/
def hydrate_routes (trips : List CoordPair) (cache : RouteCache)
    (net : CoordPair → Except Unit OsrmPayload)
    (max_new_routes : Option ℕ) : HydrateResult :=
  if missingPairs trips cache = [] then ⟨cache, 0, 0⟩
  else
    ⟨(toFallbackPairs (missingPairs trips cache) max_new_routes).foldl
        (fun c p => insertC c (pairKey p)
          (mkRouteResult p
            (straight_line_polyline6 p.start_lon p.start_lat p.end_lon p.end_lat)
            0 0 "fallback_max_new_routes"))
        (((toFetchPairs (missingPairs trips cache) max_new_routes).map
            (fetch_pair net)).foldl
          (fun c rn => insertC c
            (route_key rn.1.start_lon rn.1.start_lat rn.1.end_lon rn.1.end_lat)
            rn.1)
          cache),
      (toFetchPairs (missingPairs trips cache) max_new_routes).length,
      ((((toFetchPairs (missingPairs trips cache) max_new_routes)).map
          (fetch_pair net)).map Prod.snd).sum⟩

/-! ### Generic lemmas about folding inserts over a cache -/

/-- Fold a list into the cache, inserting the key/value computed by `f`
for each element. -/
def foldInsert {α : Type} (f : α → String × RouteResult) (c : RouteCache)
    (l : List α) : RouteCache :=
  l.foldl (fun acc a => insertC acc (f a).1 (f a).2) c

theorem lookupC_foldInsert_of_notmem {α : Type} (f : α → String × RouteResult)
    (l : List α) (c : RouteCache) (k : String)
    (h : ∀ a ∈ l, (f a).1 ≠ k) :
    lookupC (foldInsert f c l) k = lookupC c k := by
  induction l generalizing c with
  | nil => rfl
  | cons a t ih =>
    have ha := h a (List.mem_cons_self a t)
    rw [show foldInsert f c (a :: t) = foldInsert f (insertC c (f a).1 (f a).2) t from rfl,
      ih _ (fun b hb => h b (List.mem_cons_of_mem a hb)),
      lookupC_insertC_ne _ _ _ _ ha]

theorem isSome_lookupC_foldInsert {α : Type} (f : α → String × RouteResult)
    (l : List α) (c : RouteCache) (k : String)
    (h : (∃ a ∈ l, (f a).1 = k) ∨ (lookupC c k).isSome) :
    (lookupC (foldInsert f c l) k).isSome := by
  induction l generalizing c with
  | nil =>
    rcases h with ⟨a, ha, -⟩ | h2
    · exact absurd ha (List.not_mem_nil a)
    · exact h2
  | cons a t ih =>
    rw [show foldInsert f c (a :: t) = foldInsert f (insertC c (f a).1 (f a).2) t from rfl]
    rcases h with ⟨b, hb, hkey⟩ | h2
    · rcases List.mem_cons.mp hb with rfl | hbt
      · refine ih _ (Or.inr ?_)
        rw [hkey] at *
        rw [← hkey, lookupC_insertC_self]
        rfl
      · exact ih _ (Or.inl ⟨b, hbt, hkey⟩)
    · exact ih _ (Or.inr (isSome_lookupC_insertC _ _ _ _ h2))

theorem lookupC_foldInsert_nodup {α : Type} (f : α → String × RouteResult)
    (l : List α) (c : RouteCache) (a : α) (ha : a ∈ l)
    (hnd : (l.map (fun x => (f x).1)).Nodup) :
    lookupC (foldInsert f c l) (f a).1 = some (f a).2 := by
  induction l generalizing c with
  | nil => exact absurd ha (List.not_mem_nil a)
  | cons b t ih =>
    rw [show foldInsert f c (b :: t) = foldInsert f (insertC c (f b).1 (f b).2) t from rfl]
    simp only [List.map_cons, List.nodup_cons] at hnd
    rcases List.mem_cons.mp ha with rfl | hat
    · rw [lookupC_foldInsert_of_notmem]
      · exact lookupC_insertC_self _ _ _
      · intro x hx hkey
        exact hnd.1 (hkey ▸ List.mem_map_of_mem (fun y => (f y).1) hx)
    · exact ih _ hat hnd.2

theorem lookupC_foldInsert_prop {α : Type} (f : α → String × RouteResult)
    (P : RouteResult → Prop) (l : List α) (c : RouteCache) (k : String)
    (hall : ∀ a ∈ l, P (f a).2)
    (h : (∃ a ∈ l, (f a).1 = k) ∨ (∃ r, lookupC c k = some r ∧ P r)) :
    ∃ r, lookupC (foldInsert f c l) k = some r ∧ P r := by
  induction l generalizing c with
  | nil =>
    rcases h with ⟨a, ha, -⟩ | h2
    · exact absurd ha (List.not_mem_nil a)
    · exact h2
  | cons a t ih =>
    rw [show foldInsert f c (a :: t) = foldInsert f (insertC c (f a).1 (f a).2) t from rfl]
    have hall2 : ∀ b ∈ t, P (f b).2 := fun b hb => hall b (List.mem_cons_of_mem a hb)
    rcases h with ⟨b, hb, hkey⟩ | ⟨r, hr, hPr⟩
    · rcases List.mem_cons.mp hb with rfl | hbt
      · refine ih _ hall2 (Or.inr ⟨(f b).2, ?_, hall b (List.mem_cons_self b t)⟩)
        rw [← hkey]
        exact lookupC_insertC_self _ _ _
      · exact ih _ hall2 (Or.inl ⟨b, hbt, hkey⟩)
    · by_cases hk : (f a).1 = k
      · refine ih _ hall2 (Or.inr ⟨(f a).2, ?_, hall a (List.mem_cons_self a t)⟩)
        rw [← hk]
        exact lookupC_insertC_self _ _ _
      · refine ih _ hall2 (Or.inr ⟨r, ?_, hPr⟩)
        rw [lookupC_insertC_ne _ _ _ _ hk]
        exact hr

/-! ### Hydration structure lemmas -/

/-- The key/value inserted for a fetched pair: the result of `fetch_pair`,
keyed by the result's own coordinates. -/
def fetchInsertFun (net : CoordPair → Except Unit OsrmPayload) :
    CoordPair → String × RouteResult :=
  fun p => (route_key (fetch_pair net p).1.start_lon (fetch_pair net p).1.start_lat
    (fetch_pair net p).1.end_lon (fetch_pair net p).1.end_lat, (fetch_pair net p).1)

/-- The key/value inserted for a capped pair: a zeroed
`fallback_max_new_routes` result under the pair's key. -/
def fallbackInsertFun : CoordPair → String × RouteResult :=
  fun p => (pairKey p,
    mkRouteResult p
      (straight_line_polyline6 p.start_lon p.start_lat p.end_lon p.end_lat)
      0 0 "fallback_max_new_routes")

theorem hydrate_cache_eq (trips : List CoordPair) (cache : RouteCache)
    (net : CoordPair → Except Unit OsrmPayload) (mnr : Option ℕ)
    (h : missingPairs trips cache ≠ []) :
    (hydrate_routes trips cache net mnr).cache =
      foldInsert fallbackInsertFun
        (foldInsert (fetchInsertFun net) cache
          (toFetchPairs (missingPairs trips cache) mnr))
        (toFallbackPairs (missingPairs trips cache) mnr) := by
  unfold hydrate_routes
  rw [if_neg h]
  show (List.foldl _ _ _) = _
  rw [List.foldl_map]
  rfl

theorem toFetch_append_toFallback (missing : List CoordPair) (mnr : Option ℕ) :
    toFetchPairs missing mnr ++ toFallbackPairs missing mnr = missing := by
  cases mnr with
  | none => simp [toFetchPairs, toFallbackPairs]
  | some k =>
    by_cases h : missing.length > k
    · simp [toFetchPairs, toFallbackPairs, h]
    · simp [toFetchPairs, toFallbackPairs, h]

theorem toFetchPairs_sublist (missing : List CoordPair) (mnr : Option ℕ) :
    List.Sublist (toFetchPairs missing mnr) missing := by
  cases mnr with
  | none => exact List.Sublist.refl missing
  | some k =>
    by_cases h : missing.length > k
    · simp only [toFetchPairs, if_pos h]
      exact List.take_sublist k missing
    · simp only [toFetchPairs, if_neg h]
      exact List.Sublist.refl missing

theorem isSome_of_not_missing (trips : List CoordPair) (cache : RouteCache)
    (p : CoordPair) (hp : p ∈ unique_pairs trips)
    (hpm : p ∉ missingPairs trips cache) :
    (lookupC cache (pairKey p)).isSome := by
  cases hl : lookupC cache (pairKey p) with
  | some r => rfl
  | none =>
    exact absurd (List.mem_filter.mpr ⟨hp, by simp [hl]⟩) hpm

/-- After one hydration cycle every rounded unique pair of the input has a
cache entry under its key. -/
theorem hydrate_keys_present (trips : List CoordPair) (cache : RouteCache)
    (net : CoordPair → Except Unit OsrmPayload) (mnr : Option ℕ)
    (p : CoordPair) (hp : p ∈ unique_pairs trips) :
    (lookupC (hydrate_routes trips cache net mnr).cache (pairKey p)).isSome := by
  by_cases hm : missingPairs trips cache = []
  · have hcache : (hydrate_routes trips cache net mnr).cache = cache := by
      unfold hydrate_routes
      rw [if_pos hm]
    rw [hcache]
    refine isSome_of_not_missing trips cache p hp ?_
    rw [hm]
    exact List.not_mem_nil p
  · rw [hydrate_cache_eq trips cache net mnr hm]
    by_cases hpm : p ∈ missingPairs trips cache
    · have hsplit : p ∈ toFetchPairs (missingPairs trips cache) mnr ∨
          p ∈ toFallbackPairs (missingPairs trips cache) mnr := by
        rw [← toFetch_append_toFallback (missingPairs trips cache) mnr] at hpm
        exact List.mem_append.mp hpm
      rcases hsplit with hf | hb
      · refine isSome_lookupC_foldInsert _ _ _ _ (Or.inr ?_)
        exact isSome_lookupC_foldInsert _ _ _ _
          (Or.inl ⟨p, hf, fetch_pair_key net p⟩)
      · exact isSome_lookupC_foldInsert _ _ _ _ (Or.inl ⟨p, hb, rfl⟩)
    · refine isSome_lookupC_foldInsert _ _ _ _ (Or.inr ?_)
      exact isSome_lookupC_foldInsert _ _ _ _
        (Or.inr (isSome_of_not_missing trips cache p hp hpm))

theorem hydrate_routes_of_missing_nil (trips : List CoordPair)
    (cache : RouteCache) (net : CoordPair → Except Unit OsrmPayload)
    (mnr : Option ℕ) (h : missingPairs trips cache = []) :
    hydrate_routes trips cache net mnr = ⟨cache, 0, 0⟩ := by
  unfold hydrate_routes
  rw [if_pos h]

/-- C8: hydrating a second time with the same pairs is a no-op — the cache
is returned unchanged, with zero resolver attempts and zero network calls,
for any oracle and cap on the second run; keys already present are never
re-resolved (only missing keys are ever fetched), and a hydration whose
missing set is empty returns the cache unchanged. -/
theorem hydrate_idempotent (trips : List CoordPair) (cache : RouteCache)
    (net net2 : CoordPair → Except Unit OsrmPayload) (mnr mnr2 : Option ℕ) :
    hydrate_routes trips (hydrate_routes trips cache net mnr).cache net2 mnr2 =
      ⟨(hydrate_routes trips cache net mnr).cache, 0, 0⟩ := by
  have hmiss : missingPairs trips (hydrate_routes trips cache net mnr).cache = [] := by
    unfold missingPairs
    rw [List.filter_eq_nil_iff]
    intro p hp
    have hs := hydrate_keys_present trips cache net mnr p hp
    intro hn
    rw [Option.isNone_iff_eq_none] at hn
    rw [hn] at hs
    exact Bool.noConfusion hs
  exact hydrate_routes_of_missing_nil trips _ net2 mnr2 hmiss

/-- C2: with M missing pairs and a cap K < M, the pairs attempted against
the resolver are exactly the first K missing pairs, the number of resolver
attempts is exactly K, and each of the remaining M−K pairs ends up cached
with `source = fallback_max_new_routes`, zero distance and zero duration,
with no resolver call made for it. -/
theorem hydrate_capping (trips : List CoordPair) (cache : RouteCache)
    (net : CoordPair → Except Unit OsrmPayload) (k : ℕ)
    (hk : k < (missingPairs trips cache).length) :
    toFetchPairs (missingPairs trips cache) (some k) =
        (missingPairs trips cache).take k ∧
      (hydrate_routes trips cache net (some k)).resolverCalls = k ∧
      ∀ p ∈ (missingPairs trips cache).drop k,
        ∃ r, lookupC (hydrate_routes trips cache net (some k)).cache
            (pairKey p) = some r ∧
          r.route_source = "fallback_max_new_routes" ∧
          r.route_distance_m = 0 ∧ r.route_duration_s = 0 := by
  have hgt : (missingPairs trips cache).length > k := hk
  have hne : missingPairs trips cache ≠ [] := by
    intro h0
    rw [h0] at hk
    exact absurd hk (by simp)
  have htf : toFetchPairs (missingPairs trips cache) (some k) =
      (missingPairs trips cache).take k := by
    simp [toFetchPairs, hgt]
  have hfb : toFallbackPairs (missingPairs trips cache) (some k) =
      (missingPairs trips cache).drop k := by
    simp [toFallbackPairs, hgt]
  refine ⟨htf, ?_, ?_⟩
  · have hres : (hydrate_routes trips cache net (some k)).resolverCalls =
        (toFetchPairs (missingPairs trips cache) (some k)).length := by
      unfold hydrate_routes
      rw [if_neg hne]
    rw [hres, htf, List.length_take]
    exact Nat.min_eq_left (le_of_lt hk)
  · intro p hp
    rw [hydrate_cache_eq trips cache net (some k) hne]
    refine lookupC_foldInsert_prop fallbackInsertFun
      (fun r => r.route_source = "fallback_max_new_routes" ∧
        r.route_distance_m = 0 ∧ r.route_duration_s = 0)
      _ _ _ (fun a ha => ⟨rfl, rfl, rfl⟩) (Or.inl ⟨p, ?_, rfl⟩)
    rw [hfb]
    exact hp

/-- Witness trips for the hydration theorems: two distinct rounded pairs. -/
def wTrips : List CoordPair := [⟨0, 0, 1, 0⟩, ⟨0, 0, 2, 0⟩]

/-- Witness oracle that always fails (service unreachable). -/
def wNet : CoordPair → Except Unit OsrmPayload := fun _ => Except.error ()

/-- Witness for C2: two missing pairs, cap 1. -/
theorem hydrate_capping_witness :
    1 < (missingPairs wTrips []).length ∧
      (toFetchPairs (missingPairs wTrips []) (some 1) =
          (missingPairs wTrips []).take 1 ∧
        (hydrate_routes wTrips [] wNet (some 1)).resolverCalls = 1 ∧
        ∀ p ∈ (missingPairs wTrips []).drop 1,
          ∃ r, lookupC (hydrate_routes wTrips [] wNet (some 1)).cache
              (pairKey p) = some r ∧
            r.route_source = "fallback_max_new_routes" ∧
            r.route_distance_m = 0 ∧ r.route_duration_s = 0) :=
  ⟨by decide, hydrate_capping wTrips [] wNet 1 (by decide)⟩

theorem pairKey_notmem_fallback (missing : List CoordPair) (mnr : Option ℕ)
    (p : CoordPair) (hkeys : (missing.map pairKey).Nodup)
    (hp : p ∈ toFetchPairs missing mnr) :
    ∀ q ∈ toFallbackPairs missing mnr, pairKey q ≠ pairKey p := by
  cases mnr with
  | none =>
    intro q hq
    exact absurd hq (List.not_mem_nil q)
  | some k =>
    by_cases hgt : missing.length > k
    · simp only [toFetchPairs, if_pos hgt] at hp
      simp only [toFallbackPairs, if_pos hgt]
      intro q hq hkey
      have hmapnd := hkeys
      rw [← List.take_append_drop k missing, List.map_append] at hmapnd
      have hdisj := (List.nodup_append.mp hmapnd).2.2
      exact hdisj (List.mem_map_of_mem pairKey hp)
        (hkey ▸ List.mem_map_of_mem pairKey hq)
    · simp only [toFallbackPairs, if_neg hgt]
      intro q hq
      exact absurd hq (List.not_mem_nil q)

/-- C3: for a pair whose resolver call fails, the result merged into the
cache under that pair's key is the straight-line fallback — source
`fallback_straight_line`, distance 0, duration 0 — whose geometry has at
most two points, all equal to the pair's endpoints; and the failure never
aborts the cycle: every missing pair still ends up with a cache entry. -/
theorem hydrate_fallback_on_failure (trips : List CoordPair)
    (cache : RouteCache) (net : CoordPair → Except Unit OsrmPayload)
    (mnr : Option ℕ) (p : CoordPair)
    (hkeys : ((missingPairs trips cache).map pairKey).Nodup)
    (hp : p ∈ toFetchPairs (missingPairs trips cache) mnr)
    (hfail : (fetch_osrm_route net p).1 = Except.error ()) :
    lookupC (hydrate_routes trips cache net mnr).cache (pairKey p) =
        some (mkRouteResult p
          (straight_line_polyline6 p.start_lon p.start_lat p.end_lon p.end_lat)
          0 0 "fallback_straight_line") ∧
      (straight_line_polyline6 p.start_lon p.start_lat p.end_lon p.end_lat).length ≤ 2 ∧
      (∀ q ∈ straight_line_polyline6 p.start_lon p.start_lat p.end_lon p.end_lat,
        q = (p.start_lat, p.start_lon) ∨ q = (p.end_lat, p.end_lon)) ∧
      ∀ q ∈ missingPairs trips cache,
        (lookupC (hydrate_routes trips cache net mnr).cache (pairKey q)).isSome := by
  have hne : missingPairs trips cache ≠ [] := by
    intro h0
    rw [h0] at hp
    cases mnr <;> simp [toFetchPairs] at hp
  have hfetchnd : ((toFetchPairs (missingPairs trips cache) mnr).map pairKey).Nodup :=
    List.Nodup.sublist
      (List.Sublist.map pairKey (toFetchPairs_sublist (missingPairs trips cache) mnr))
      hkeys
  have hfunnd : ((toFetchPairs (missingPairs trips cache) mnr).map
      (fun x => (fetchInsertFun net x).1)).Nodup := by
    have hcongr : (toFetchPairs (missingPairs trips cache) mnr).map
        (fun x => (fetchInsertFun net x).1) =
        (toFetchPairs (missingPairs trips cache) mnr).map pairKey :=
      List.map_congr_left (fun a ha => fetch_pair_key net a)
    rw [hcongr]
    exact hfetchnd
  refine ⟨?_, straight_line_polyline6_length _ _ _ _,
    straight_line_polyline6_mem _ _ _ _, ?_⟩
  · rw [hydrate_cache_eq trips cache net mnr hne]
    rw [lookupC_foldInsert_of_notmem fallbackInsertFun _ _ _
      (fun q hq => pairKey_notmem_fallback (missingPairs trips cache) mnr p hkeys hp q hq)]
    have hlook := lookupC_foldInsert_nodup (fetchInsertFun net)
      (toFetchPairs (missingPairs trips cache) mnr) cache p hp hfunnd
    rw [show (fetchInsertFun net p).1 = pairKey p from fetch_pair_key net p] at hlook
    rw [hlook]
    show some (fetch_pair net p).1 = _
    rw [fetch_pair_of_error net p hfail]
  · intro q hq
    exact hydrate_keys_present trips cache net mnr q
      (List.mem_of_mem_filter hq)

/-- Witness pair for C3. -/
def wPair : CoordPair := ⟨0, 0, 1, 0⟩

/-- Witness for C3: a single missing pair whose resolver call fails. -/
theorem hydrate_fallback_on_failure_witness :
    ((missingPairs [wPair] []).map pairKey).Nodup ∧
      wPair ∈ toFetchPairs (missingPairs [wPair] []) none ∧
      (fetch_osrm_route wNet wPair).1 = Except.error () ∧
      (lookupC (hydrate_routes [wPair] [] wNet none).cache (pairKey wPair) =
          some (mkRouteResult wPair
            (straight_line_polyline6 wPair.start_lon wPair.start_lat
              wPair.end_lon wPair.end_lat)
            0 0 "fallback_straight_line") ∧
        (straight_line_polyline6 wPair.start_lon wPair.start_lat
          wPair.end_lon wPair.end_lat).length ≤ 2 ∧
        (∀ q ∈ straight_line_polyline6 wPair.start_lon wPair.start_lat
            wPair.end_lon wPair.end_lat,
          q = (wPair.start_lat, wPair.start_lon) ∨
            q = (wPair.end_lat, wPair.end_lon)) ∧
        ∀ q ∈ missingPairs [wPair] [],
          (lookupC (hydrate_routes [wPair] [] wNet none).cache
            (pairKey q)).isSome) :=
  ⟨by decide, by decide, rfl,
   hydrate_fallback_on_failure [wPair] [] wNet none wPair
     (by decide) (by decide) rfl⟩

/-! ### The backfill orchestrator (backfill_range.py lines 446-620).
Filesystem and per-month pipeline behaviour are oracles: `hasOutput` is
`month_has_output` (line 212), `pauseExists` is the `pause_file.exists()`
check performed at the boundary of a month's iteration, `processOk` tells
whether `process_month` succeeds.  The loop state tracks the completed
counter, the paused flag, and the list of months actually passed to
`process_month` (each such call is the month's resolver/network work). -/

/-- The orchestrator's environment of oracles and flags. -/
structure BackfillEnv where
  resume : Bool
  continueOnError : Bool
  hasOutput : String → Bool
  pauseExists : String → Bool
  processOk : String → Bool

/-- The mutable state of the per-month loop. -/
structure LoopState where
  completed : ℕ
  paused : Bool
  calls : List String
deriving DecidableEq, Repr

/-- The per-month loop (backfill_range.py lines 496-583): skip a month
with existing output under resume (counting it completed and checking the
pause sentinel), stop before processing once paused, otherwise run
`process_month`; on success count it and check the pause sentinel
(breaking if present), on failure abort unless continue-on-error. -/
def stepMonths (env : BackfillEnv) : List String → LoopState →
    Except LoopState LoopState
  | [], s => Except.ok s
  | m :: rest, s =>
    if env.resume && env.hasOutput m then
      stepMonths env rest ⟨s.completed + 1, s.paused || env.pauseExists m, s.calls⟩
    else if s.paused then Except.ok s
    else if env.processOk m then
      if env.pauseExists m then Except.ok ⟨s.completed + 1, true, s.calls ++ [m]⟩
      else stepMonths env rest ⟨s.completed + 1, s.paused, s.calls ++ [m]⟩
    else if env.continueOnError then
      stepMonths env rest ⟨s.completed, s.paused, s.calls ++ [m]⟩
    else Except.error ⟨s.completed, s.paused, s.calls ++ [m]⟩

/-- The final persisted backfill state (backfill_range.py lines 585-614):
status string, completed-month count, and the next month
(`months[completed_months]` when in range, else absent). -/
structure FinalState where
  status : String
  completed_months : ℕ
  next_month : Option String
deriving DecidableEq, Repr

/-- A whole orchestrator run: the loop from the initial state followed by
the final state write — `paused` when the pause flag is set, else
`completed`.  A propagated exception (`Except.error`) carries the loop
state at the failure. -/
def backfillRun (env : BackfillEnv) (months : List String) :
    Except LoopState (FinalState × LoopState) :=
  match stepMonths env months ⟨0, false, []⟩ with
  | Except.error s => Except.error s
  | Except.ok s =>
    if s.paused then
      Except.ok (⟨"paused", s.completed, months.get? s.completed⟩, s)
    else Except.ok (⟨"completed", s.completed, none⟩, s)

/-- C7: the resume contract as a step equation — when resume is enabled
and a month's output already exists (and the pause sentinel is absent at
its boundary), the orchestrator's loop on that month is exactly the loop
on the remaining months with the completed counter incremented: no
`process_month` call (hence zero resolver/network work and zero hydration)
is recorded for the skipped month, and processing proceeds with the next
period. -/
theorem resume_skip_no_work (env : BackfillEnv) (m : String)
    (rest : List String) (s : LoopState)
    (h1 : env.resume = true) (h2 : env.hasOutput m = true)
    (h3 : env.pauseExists m = false) :
    stepMonths env (m :: rest) s =
      stepMonths env rest ⟨s.completed + 1, s.paused, s.calls⟩ := by
  simp [stepMonths, h1, h2, h3]

/-- Witness for C7 on a concrete two-month plan. -/
def wEnv : BackfillEnv :=
  ⟨true, false, fun m => m == "2024-01", fun _ => false, fun _ => true⟩

/-- Witness for C7: skipping the first month with existing output. -/
theorem resume_skip_no_work_witness :
    wEnv.resume = true ∧ wEnv.hasOutput "2024-01" = true ∧
      wEnv.pauseExists "2024-01" = false ∧
      stepMonths wEnv ["2024-01", "2024-02"] ⟨0, false, []⟩ =
        stepMonths wEnv ["2024-02"] ⟨0 + 1, false, []⟩ :=
  ⟨rfl, rfl, rfl,
   resume_skip_no_work wEnv "2024-01" ["2024-02"] ⟨0, false, []⟩ rfl rfl rfl⟩

theorem stepMonths_pause_run (env : BackfillEnv) :
    ∀ (months : List String) (k : ℕ) (hk : k < months.length),
      (∀ m ∈ months, env.hasOutput m = false) →
      (∀ m ∈ months, env.processOk m = true) →
      env.pauseExists (months.get ⟨k, hk⟩) = true →
      (∀ (j : ℕ) (hj : j < k),
        env.pauseExists (months.get ⟨j, lt_trans hj hk⟩) = false) →
      ∀ (c : ℕ) (cs : List String),
        stepMonths env months ⟨c, false, cs⟩ =
          Except.ok ⟨c + (k + 1), true, cs ++ months.take (k + 1)⟩ := by
  intro months
  induction months with
  | nil =>
    intro k hk
    exact absurd hk (Nat.not_lt_zero k)
  | cons m rest ih =>
    intro k hk hout hok hpk hpj c cs
    have hom : env.hasOutput m = false := hout m (List.mem_cons_self m rest)
    have hpm : env.processOk m = true := hok m (List.mem_cons_self m rest)
    cases k with
    | zero =>
      have hpause : env.pauseExists m = true := hpk
      simp [stepMonths, hom, hpm, hpause]
    | succ k2 =>
      have hpause : env.pauseExists m = false := hpj 0 (Nat.succ_pos k2)
      have hk2 : k2 < rest.length := Nat.lt_of_succ_lt_succ hk
      have hout2 : ∀ x ∈ rest, env.hasOutput x = false :=
        fun x hx => hout x (List.mem_cons_of_mem m hx)
      have hok2 : ∀ x ∈ rest, env.processOk x = true :=
        fun x hx => hok x (List.mem_cons_of_mem m hx)
      have hpk2 : env.pauseExists (rest.get ⟨k2, hk2⟩) = true := hpk
      have hpj2 : ∀ (j : ℕ) (hj : j < k2),
          env.pauseExists (rest.get ⟨j, lt_trans hj hk2⟩) = false :=
        fun j hj => hpj (j + 1) (Nat.succ_lt_succ hj)
      have hstep : stepMonths env (m :: rest) ⟨c, false, cs⟩ =
          stepMonths env rest ⟨c + 1, false, cs ++ [m]⟩ := by
        simp [stepMonths, hom, hpm, hpause]
      rw [hstep, ih k2 hk2 hout2 hok2 hpk2 hpj2 (c + 1) (cs ++ [m])]
      have harith : c + 1 + (k2 + 1) = c + (k2 + 1 + 1) := by omega
      rw [harith]
      simp [List.take_succ_cons, List.append_assoc]

/-- C6: if the pause sentinel exists at the boundary check after the k-th
month finishes processing (all earlier months processed successfully with
no sentinel and no pre-existing output), the orchestrator does not start
the next month: exactly the first k+1 months are passed to
`process_month`, and the final persisted state is `paused` with
completed count k+1 and next month the first unprocessed one. -/
theorem backfill_pause_boundary (env : BackfillEnv) (months : List String)
    (k : ℕ) (hk : k < months.length)
    (hout : ∀ m ∈ months, env.hasOutput m = false)
    (hok : ∀ m ∈ months, env.processOk m = true)
    (hpk : env.pauseExists (months.get ⟨k, hk⟩) = true)
    (hpj : ∀ (j : ℕ) (hj : j < k),
      env.pauseExists (months.get ⟨j, lt_trans hj hk⟩) = false) :
    backfillRun env months =
      Except.ok (⟨"paused", k + 1, months.get? (k + 1)⟩,
        ⟨k + 1, true, months.take (k + 1)⟩) := by
  unfold backfillRun
  rw [stepMonths_pause_run env months k hk hout hok hpk hpj 0 []]
  simp

/-- Witness environment for C6: no prior output, processing succeeds, the
pause sentinel appears during the second month. -/
def pEnv : BackfillEnv :=
  ⟨false, false, fun _ => false, fun m => m == "b", fun _ => true⟩

/-- Witness for C6 on the plan [a, b, c] pausing after b. -/
theorem backfill_pause_boundary_witness :
    pEnv.pauseExists (["a", "b", "c"].get ⟨1, by decide⟩) = true ∧
      backfillRun pEnv ["a", "b", "c"] =
        Except.ok (⟨"paused", 2, ["a", "b", "c"].get? 2⟩,
          ⟨2, true, ["a", "b", "c"].take 2⟩) :=
  ⟨rfl,
   backfill_pause_boundary pEnv ["a", "b", "c"] 1 (by decide)
     (by decide) (by decide) rfl
     (fun j hj => by
       have hj0 : j = 0 := Nat.lt_one_iff.mp hj
       subst hj0
       rfl)⟩

/-! ### The rate limiter (`RateLimiter`, london_bike_pipeline.py
lines 131-147).  The lock serializes the whole body of `wait`, so a run
is a sequence of calls; each call observes the monotonic clock at entry
(`tEnter`) and, when it sleeps, again after the sleep (`tAfterSleep`).
`time.sleep(d)` suspends for at least `d`, so after sleeping the clock is
at least the target instant — that is the sleep clause of `ValidObs`;
clock monotonicity across serialized calls is the first clause.  A call
returns at its final clock sample (bookkeeping takes extra nonnegative
time, which only increases real separations beyond the bound proved). -/

/-- The clock samples observed by one `wait()` call. -/
structure WaitObs where
  tEnter : ℚ
  tAfterSleep : ℚ

/-- One `wait()` call (lines 141-147): read the clock, sleep until
`_next_ts` if early, then advance `_next_ts` to
`max(_next_ts, now) + interval`.  Returns (return clock, new `_next_ts`). -/
def waitStep (interval nextTs : ℚ) (o : WaitObs) : ℚ × ℚ :=
  (if o.tEnter < nextTs then o.tAfterSleep else o.tEnter,
   max nextTs (if o.tEnter < nextTs then o.tAfterSleep else o.tEnter) + interval)

/-- The return instants of a serialized sequence of `wait()` calls,
starting from `_next_ts = nextTs`. -/
def runLimiter (interval : ℚ) : ℚ → List WaitObs → List ℚ
  | _, [] => []
  | nextTs, o :: rest =>
    (waitStep interval nextTs o).1 ::
      runLimiter interval (waitStep interval nextTs o).2 rest

/-- Physical validity of a trace: each call's entry clock is at least the
previous return clock (monotonic clock, serialized calls), the post-sleep
clock is at least the entry clock, and sleeping until `_next_ts` wakes no
earlier than `_next_ts`. -/
def ValidObs (interval : ℚ) : ℚ → ℚ → List WaitObs → Prop
  | _, _, [] => True
  | nextTs, prev, o :: rest =>
    prev ≤ o.tEnter ∧ o.tEnter ≤ o.tAfterSleep ∧
      (o.tEnter < nextTs → nextTs ≤ o.tAfterSleep) ∧
      ValidObs interval (waitStep interval nextTs o).2
        (waitStep interval nextTs o).1 rest

theorem waitStep_first_ge (interval nextTs : ℚ) (o : WaitObs)
    (hsleep : o.tEnter < nextTs → nextTs ≤ o.tAfterSleep) :
    nextTs ≤ (waitStep interval nextTs o).1 := by
  unfold waitStep
  by_cases h : o.tEnter < nextTs
  · simp only [if_pos h]
    exact hsleep h
  · simp only [if_neg h]
    exact le_of_not_lt h

theorem runLimiter_chain (interval : ℚ) :
    ∀ (obs : List WaitObs) (nextTs prev : ℚ),
      ValidObs interval nextTs prev obs →
      List.Chain' (fun r1 r2 => r1 + interval ≤ r2)
        (runLimiter interval nextTs obs) := by
  intro obs
  induction obs with
  | nil =>
    intro nextTs prev hv
    simp [runLimiter]
  | cons o rest ih =>
    intro nextTs prev hv
    obtain ⟨h1, h2, h3, hv2⟩ := hv
    refine List.chain'_cons'.mpr ⟨?_, ih _ _ hv2⟩
    intro r2 hr2
    cases rest with
    | nil => simp [runLimiter] at hr2
    | cons o2 rest2 =>
      obtain ⟨g1, g2, g3, -⟩ := hv2
      have hr2eq : (waitStep interval (waitStep interval nextTs o).2 o2).1 = r2 := by
        simpa [runLimiter] using hr2
      rw [← hr2eq]
      have hge : (waitStep interval nextTs o).2 ≤
          (waitStep interval (waitStep interval nextTs o).2 o2).1 :=
        waitStep_first_ge interval _ o2 g3
      refine le_trans ?_ hge
      have hmax : (waitStep interval nextTs o).1 + interval ≤
          max nextTs (waitStep interval nextTs o).1 + interval :=
        add_le_add_right (le_max_right _ _) interval
      exact le_trans hmax (le_of_eq rfl)

/-- C10: pacing of the rate limiter.  For a limiter built at `qps > 0`
(interval `1/qps`) and any physically valid serialized trace of `wait()`
calls, the i-th and j-th returns (i < j) are separated by at least
`(j-i)/qps`; in particular consecutive returns are at least `1/qps` apart
— no bursting even after idle gaps — and completing N calls takes at
least `(N-1)/qps` from the first return to the last. -/
theorem rate_limiter_pacing (qps : ℚ) (hq : 0 < qps) (obs : List WaitObs)
    (hv : ValidObs (1/qps) 0 0 obs) (i j : ℕ) (hij : i < j)
    (hj : j < (runLimiter (1/qps) 0 obs).length) :
    (runLimiter (1/qps) 0 obs).get ⟨i, lt_trans hij hj⟩ +
        ((j - i : ℕ) : ℚ) * (1/qps) ≤
      (runLimiter (1/qps) 0 obs).get ⟨j, hj⟩ := by
  have hchain := runLimiter_chain (1/qps) obs 0 0 hv
  have hcons := List.chain'_iff_get.mp hchain
  induction j with
  | zero => exact absurd hij (Nat.not_lt_zero i)
  | succ j2 ihj =>
    by_cases hcase : i = j2
    · subst hcase
      have hstep := hcons i (by omega)
      have hsub : i + 1 - i = 1 := by omega
      rw [hsub]
      simpa using hstep
    · have hij2 : i < j2 := by omega
      have hj2 : j2 < (runLimiter (1/qps) 0 obs).length := by omega
      have IH := ihj hij2 hj2
      have hstep := hcons j2 (by omega)
      have hchain2 : (runLimiter (1/qps) 0 obs).get ⟨i, lt_trans hij2 hj2⟩ +
          ((j2 - i : ℕ) : ℚ) * (1/qps) + 1/qps ≤
          (runLimiter (1/qps) 0 obs).get ⟨j2 + 1, hj⟩ :=
        le_trans (add_le_add_right IH (1/qps)) hstep
      have hcast : ((j2 + 1 - i : ℕ) : ℚ) = ((j2 - i : ℕ) : ℚ) + 1 := by
        have h2 : j2 + 1 - i = (j2 - i) + 1 := by omega
        rw [h2]
        push_cast
        ring
      rw [hcast]
      calc (runLimiter (1/qps) 0 obs).get ⟨i, lt_trans hij hj⟩ +
            (((j2 - i : ℕ) : ℚ) + 1) * (1/qps)
          = (runLimiter (1/qps) 0 obs).get ⟨i, lt_trans hij hj⟩ +
            ((j2 - i : ℕ) : ℚ) * (1/qps) + 1/qps := by ring
        _ ≤ (runLimiter (1/qps) 0 obs).get ⟨j2 + 1, hj⟩ := hchain2

/-- Witness for C10: qps 2, two calls, the second waking exactly at the
half-second boundary. -/
theorem rate_limiter_pacing_witness :
    (0 : ℚ) < 2 ∧
      ValidObs (1/2) 0 0 [⟨0, 0⟩, ⟨0, 1/2⟩] ∧
      (runLimiter ((1 : ℚ)/2) 0 [⟨0, 0⟩, ⟨0, 1/2⟩]).get ⟨0, by decide⟩ +
          ((1 - 0 : ℕ) : ℚ) * (1/2) ≤
        (runLimiter ((1 : ℚ)/2) 0 [⟨0, 0⟩, ⟨0, 1/2⟩]).get ⟨1, by decide⟩ :=
  ⟨by norm_num, by norm_num [ValidObs, waitStep],
   rate_limiter_pacing 2 (by norm_num) [⟨0, 0⟩, ⟨0, 1/2⟩]
     (by norm_num [ValidObs, waitStep]) 0 1 (by decide) (by decide)⟩
